import Mathlib

/-!
Shallow embedding of the multi-agent orchestration core of the repository:
the BaseAgent wrapper over the conversational query engine and the
AgentOrchestrator registry with its composition strategies
(runSequentialChain, runParallelAgents, runConsensusAgents, runPipeline,
runWithSupervisor). The external query engine is modelled as a pure
function from a query call to either a thrown error or the finite list of
SDK messages it emits; JS Maps are modelled as insertion-ordered
association lists with the same set and iteration semantics.
-/

/-- JS trim modelled structurally over the character list: whitespace
characters dropped from both ends (the strings the code trims contain
only ASCII whitespace, where JS and Lean whitespace agree). -/
def jsTrim (s : String) : String :=
  String.mk (((s.data.dropWhile Char.isWhitespace).reverse.dropWhile Char.isWhitespace).reverse)

/-- One entry update of a JS Map modelled as an insertion-ordered
association list: setting an existing key updates its value in place,
keeping the key's original position; a new key is appended at the end. -/
def mapSet {α : Type} : List (String × α) → String → α → List (String × α)
  | [], k, v => [(k, v)]
  | (k0, v0) :: rest, k, v =>
      if k0 = k then (k0, v) :: rest else (k0, v0) :: mapSet rest k v

/-- Map lookup: the value of the first entry with the given key. -/
def mapGet {α : Type} (m : List (String × α)) (k : String) : Option α :=
  (m.find? (fun p => p.1 == k)).map (fun p => p.2)

/-- Token usage pair carried by a terminal result event. -/
structure Usage where
  input_tokens : Nat
  output_tokens : Nat
deriving DecidableEq, Repr

/-- Payload of an SDKResultMessage: the terminal event of one query.
The cost figure is modelled as an exact integer token since nothing in
the code computes with it; it is only copied into the AgentResult. -/
structure ResultEventData where
  subtype : String
  result : String := ""
  session_id : String
  num_turns : Nat
  usage : Usage
  total_cost_usd : Int := 0
  errors : Option (List String) := none
deriving DecidableEq, Repr

/-- Events of the query engine's stream: only the type tag "result" is
inspected by the code, so all non-result messages are kept abstract. -/
inductive SDKMessage : Type
  | result (data : ResultEventData)
  | assistant (text : String)
  | system (text : String)
deriving DecidableEq, Repr

/-- Outcome of one agent invocation (interface AgentResult of the types
module): success flag plus optional payload fields. -/
structure AgentResult where
  success : Bool
  result : Option String := none
  sessionId : Option String := none
  numTurns : Option Nat := none
  usage : Option Usage := none
  totalCostUsd : Option Int := none
  error : Option String := none
  errors : Option (List String) := none
deriving DecidableEq, Repr

/-- Agent configuration (interface AgentConfig). The mcpServers map is
omitted: it is passed through to the engine unread by the core. -/
structure AgentConfig where
  name : String
  systemPrompt : String
  model : Option String := none
  maxTurns : Option Nat := none
  permissionMode : Option String := none
  allowedTools : Option (List String) := none
  disallowedTools : Option (List String) := none
deriving Repr

def DEFAULT_MODEL : String := "claude-sonnet-4-5-20250929"

def DEFAULT_MAX_TURNS : Nat := 10

/-- Runtime agent handle: one config plus the single mutable session
reference. -/
structure BaseAgent where
  config : AgentConfig
  sessionId : Option String := none
deriving Repr

/-- BaseAgent constructor: merges the defaults for model, maxTurns and
permissionMode into the given config. -/
def BaseAgent.create (config : AgentConfig) : BaseAgent :=
  { config := { config with
      model := some (config.model.getD DEFAULT_MODEL),
      maxTurns := some (config.maxTurns.getD DEFAULT_MAX_TURNS),
      permissionMode := some (config.permissionMode.getD "default") } }

/-- The argument record of one call to the engine's query function. -/
structure QueryCall where
  prompt : String
  model : Option String
  systemPrompt : String
  maxTurns : Option Nat
  permissionMode : Option String
  allowedTools : Option (List String)
  disallowedTools : Option (List String)
  resume : Option String
deriving Repr

/-- The query engine as a pure collaborator: a call either throws (error
case, carrying the thrown Error's message when the thrown value is an
Error, none otherwise) or returns the finite event list it emits. -/
def Engine : Type := QueryCall → Except (Option String) (List SDKMessage)

/-- The query call BaseAgent.run issues for a given prompt. -/
def queryCallOf (a : BaseAgent) (prompt : String) : QueryCall :=
  { prompt := prompt
    model := a.config.model
    systemPrompt := a.config.systemPrompt
    maxTurns := a.config.maxTurns
    permissionMode := a.config.permissionMode
    allowedTools := a.config.allowedTools
    disallowedTools := a.config.disallowedTools
    resume := a.sessionId }

/-- Mapping of a terminal result event to an AgentResult, exactly as the
two branches of the result-message case in BaseAgent.run build it. -/
def mapResultEvent (d : ResultEventData) : AgentResult :=
  if d.subtype = "success" then
    { success := true
      result := some d.result
      sessionId := some d.session_id
      numTurns := some d.num_turns
      usage := some d.usage
      totalCostUsd := some d.total_cost_usd }
  else
    { success := false
      sessionId := some d.session_id
      numTurns := some d.num_turns
      error := some d.subtype
      errors := d.errors }

/-- One step of the event loop in BaseAgent.run: a result message
overwrites the pending AgentResult and the session reference; every
other message leaves both unchanged. -/
def runStep (acc : AgentResult × Option String) (m : SDKMessage) :
    AgentResult × Option String :=
  match m with
  | .result d => (mapResultEvent d, some d.session_id)
  | _ => acc

/-- BaseAgent.run: issues one query and folds the event list, starting
from the fixed no-result failure; returns the final AgentResult together
with the agent as mutated (its session reference after the call). A
thrown engine error is mapped to a failure carrying the error's message
(or the fixed unknown-error text), never rethrown. -/
def BaseAgent.run (e : Engine) (a : BaseAgent) (prompt : String) :
    AgentResult × BaseAgent :=
  match e (queryCallOf a prompt) with
  | .error err => ({ success := false, error := some (err.getD "Unknown error") }, a)
  | .ok msgs =>
      let init : AgentResult := { success := false, error := some "No result received" }
      let final := msgs.foldl runStep (init, a.sessionId)
      (final.1, { a with sessionId := final.2 })

/-- Helper createAgent of the base-agent module. -/
def createAgent (name systemPrompt : String) : BaseAgent :=
  BaseAgent.create { name := name, systemPrompt := systemPrompt }

/-- The result-event payloads of an event list, in emission order. -/
def resultDatas (msgs : List SDKMessage) : List ResultEventData :=
  msgs.filterMap (fun m => match m with
    | .result d => some d
    | _ => none)

/-- Handoff log entry (interface AgentHandoff). The opaque data payload
is modelled by its serialized text, absent when no data was given. -/
structure AgentHandoff where
  fromAgent : String
  toAgent : String
  context : String
  data : Option String := none
deriving DecidableEq, Repr

/-- State of an AgentOrchestrator: the agent table (a JS Map), the
append-only handoff history, and the current-agent cursor. -/
structure AgentOrchestrator where
  agents : List (String × BaseAgent) := []
  handoffHistory : List AgentHandoff := []
  currentAgent : Option String := none
deriving Repr

/-- AgentOrchestrator.registerAgent: construct a fresh BaseAgent from the
config and store it under the config's name. -/
def AgentOrchestrator.registerAgent (st : AgentOrchestrator) (config : AgentConfig) :
    AgentOrchestrator :=
  { st with agents := mapSet st.agents config.name (BaseAgent.create config) }

/-- AgentOrchestrator.execute. Returns the AgentResult, the orchestrator
state after the call, and (instrumentation for the never-invoked claims)
the names of the agents whose run was invoked during the call. -/
def AgentOrchestrator.execute (e : Engine) (st : AgentOrchestrator)
    (startAgent task : String) : AgentResult × AgentOrchestrator × List String :=
  match mapGet st.agents startAgent with
  | none =>
      ({ success := false, error := some ("Agent not found: " ++ startAgent) }, st, [])
  | some agent =>
      let st1 := { st with currentAgent := some startAgent }
      let out := BaseAgent.run e agent task
      (out.1, { st1 with agents := mapSet st1.agents startAgent out.2 }, [startAgent])

/-- The synthesized handoff prompt (template literal of
AgentOrchestrator.handoff followed by trim). -/
def handoffMessage (fromAgent context : String) (data : Option String) : String :=
  jsTrim ("\n[HANDOFF FROM " ++ fromAgent ++ "]\nContext: " ++ context ++ "\n"
    ++ (match data with
        | some d => "Data: " ++ d
        | none => "")
    ++ "\n\nPlease continue with this task based on the context provided.\n    ")

/-- AgentOrchestrator.handoff. Same return shape as execute: result,
state after the call, names of agents whose run was invoked. -/
def AgentOrchestrator.handoff (e : Engine) (st : AgentOrchestrator)
    (toAgent context : String) (data : Option String) :
    AgentResult × AgentOrchestrator × List String :=
  match st.currentAgent with
  | none =>
      ({ success := false, error := some "No current agent to hand off from" }, st, [])
  | some cur =>
      match mapGet st.agents toAgent with
      | none =>
          ({ success := false, error := some ("Target agent not found: " ++ toAgent) }, st, [])
      | some nextAgent =>
          let record : AgentHandoff :=
            { fromAgent := cur, toAgent := toAgent, context := context, data := data }
          let st1 := { st with handoffHistory := st.handoffHistory ++ [record] }
          let msg := handoffMessage cur context data
          let st2 := { st1 with currentAgent := some toAgent }
          let out := BaseAgent.run e nextAgent msg
          (out.1, { st2 with agents := mapSet st2.agents toAgent out.2 }, [toAgent])

/-- Agent specification taken by the composition strategies. -/
structure AgentSpec where
  name : String
  systemPrompt : String
deriving DecidableEq, Repr

/-- The wrapper runSequentialChain puts around a stage's output before
feeding it to the next stage. A success result always carries its text
in the source; an absent text is rendered as the JS interpolation of
undefined would be. -/
def sequentialWrapper (resultText : Option String) : String :=
  "Previous agent output:\n" ++
    (match resultText with
     | some t => t
     | none => "undefined") ++
    "\n\nPlease continue with your task."

/-- Trace of the runSequentialChain loop: one entry per executed stage,
carrying the prompt delivered to that stage and the stage's AgentResult.
The loop body is the source's: run the stage's fresh agent on the current
input, record the result, stop after the first failure, otherwise wrap
the output and continue. -/
def runSequentialChainTrace (e : Engine) :
    List AgentSpec → String → List (String × AgentResult)
  | [], _ => []
  | spec :: rest, input =>
      let result := (BaseAgent.run e (createAgent spec.name spec.systemPrompt) input).1
      if result.success then
        (input, result) :: runSequentialChainTrace e rest (sequentialWrapper result.result)
      else
        [(input, result)]

/-- The runSequentialChain of the orchestrator module: the ordered list
of per-stage results collected by the loop. -/
def runSequentialChain (e : Engine) (agents : List AgentSpec) (initialInput : String) :
    List AgentResult :=
  (runSequentialChainTrace e agents initialInput).map (fun p => p.2)

/-- The runParallelAgents of the orchestrator module: one fresh agent per
spec, all run on the identical input (the engine being a pure function,
the concurrent join of the source is the list of the independent
outcomes in input order), then folded into a JS Map keyed by agent name. -/
def runParallelAgents (e : Engine) (agents : List AgentSpec) (input : String) :
    List (String × AgentResult) :=
  let outcomes := agents.map (fun a =>
    (a.name, (BaseAgent.run e (createAgent a.name a.systemPrompt) input).1))
  outcomes.foldl (fun m p => mapSet m p.1 p.2) []

/-- The voting prompt runConsensusAgents builds from the question and the
1-indexed enumeration of the options. -/
def votingPrompt (question : String) (options : List String) : String :=
  jsTrim ("\n" ++ question ++
    "\n\nPlease choose ONE of the following options and explain your reasoning:\n" ++
    String.intercalate "\n"
      (options.mapIdx (fun i opt => toString (i + 1) ++ ". " ++ opt)) ++
    "\n\nRespond with your choice number first, then your reasoning.\n  ")

/-- The leading run of decimal digits of a string; none when the first
character is not a digit (the regex match of the source). -/
def leadingDigits (s : String) : Option String :=
  match s.data.takeWhile Char.isDigit with
  | [] => none
  | ds => some (String.mk ds)

/-- Decimal value of a digit string (parseInt on a match of the digit
regex). -/
def digitsToNat (s : String) : Nat :=
  s.data.foldl (fun n c => n * 10 + (c.toNat - 48)) 0

/-- The vote one agent's result contributes, per the forEach body of
runConsensusAgents: a successful result with non-empty text whose leading
digits give a 1-based index into the options yields that option; every
other result yields nothing. -/
def parseVote (options : List String) (r : AgentResult) : Option String :=
  if r.success then
    match r.result with
    | some text =>
        if text = "" then none
        else
          match leadingDigits text with
          | some ds =>
              let n := digitsToNat ds
              if 1 ≤ n ∧ n ≤ options.length then some (options.getD (n - 1) "") else none
          | none => none
    | none => none
  else none

/-- The votes map of runConsensusAgents: fold the parallel results in
iteration order, recording each parsed vote under the agent's name. -/
def parseVotes (options : List String) (results : List (String × AgentResult)) :
    List (String × String) :=
  results.foldl (fun vs p =>
    match parseVote options p.2 with
    | some opt => mapSet vs p.1 opt
    | none => vs) []

/-- The voteCounts map of runConsensusAgents: per-option tallies, keyed
in the order each option first received a vote. -/
def countVotes (votes : List (String × String)) : List (String × Nat) :=
  votes.foldl (fun cs p => mapSet cs p.2 ((mapGet cs p.2).getD 0 + 1)) []

/-- The winner fold of runConsensusAgents: start from the first option
with zero votes, replace the pending winner whenever a strictly larger
tally is seen, in voteCounts iteration order. -/
def selectWinner (options : List String) (voteCounts : List (String × Nat)) : String :=
  (voteCounts.foldl (fun wm p => if p.2 > wm.2 then p else wm) (options.headD "", 0)).1

/-- The runConsensusAgents of the orchestrator module: winner plus the
per-agent parsed vote map. -/
def runConsensusAgents (e : Engine) (agents : List AgentSpec)
    (question : String) (options : List String) : String × List (String × String) :=
  let results := runParallelAgents e agents (votingPrompt question options)
  let votes := parseVotes options results
  (selectWinner options (countVotes votes), votes)

/-- Pipeline stage specification: name, system prompt, optional
transform applied to the stage's output before the next stage. -/
structure PipelineStage where
  name : String
  systemPrompt : String
  transform : Option (String → String) := none

/-- The input handed to the stage after this one in runPipeline: the
transform applied to the result text when supplied, the raw result text
otherwise; an absent text is replaced by the empty string in both cases
(the or-empty guard of the source). -/
def pipelineNextInput (stage : PipelineStage) (r : AgentResult) : String :=
  match stage.transform with
  | some f => f (r.result.getD "")
  | none => r.result.getD ""

/-- Trace of the runPipeline loop: one entry per executed stage carrying
the stage name, the prompt delivered to it, and its AgentResult; the
loop stops after the first failing stage. -/
def runPipelineTrace (e : Engine) :
    List PipelineStage → String → List (String × String × AgentResult)
  | [], _ => []
  | stage :: rest, input =>
      let result := (BaseAgent.run e (createAgent stage.name stage.systemPrompt) input).1
      if result.success then
        (stage.name, input, result) :: runPipelineTrace e rest (pipelineNextInput stage result)
      else
        [(stage.name, input, result)]

/-- The runPipeline of the orchestrator module: the stage-name-keyed map
of executed stages' results, and the final result (the last computed
stage result, or the fixed no-stages failure when the stage list is
empty). -/
def runPipeline (e : Engine) (stages : List PipelineStage) (initialInput : String) :
    AgentResult × List (String × AgentResult) :=
  let trace := runPipelineTrace e stages initialInput
  let stageResults := trace.foldl (fun m p => mapSet m p.1 p.2.2) []
  let finalResult :=
    match trace.getLast? with
    | some p => p.2.2
    | none => { success := false, error := some "No stages executed" }
  (finalResult, stageResults)

/-- Sub-agent specification taken by runWithSupervisor. -/
structure SubAgentSpec where
  name : String
  systemPrompt : String
  description : String
deriving DecidableEq, Repr

/-- The rendered catalogue of delegate names and descriptions. -/
def subAgentCatalogue (subAgents : List SubAgentSpec) : String :=
  String.intercalate "\n" (subAgents.map (fun a => "- " ++ a.name ++ ": " ++ a.description))

/-- The composite supervisor prompt of runWithSupervisor: base
instructions, the delegate catalogue, and the task text, trimmed. -/
def enhancedPromptFor (supervisorPrompt : String) (subAgents : List SubAgentSpec)
    (task : String) : String :=
  jsTrim ("\n" ++ supervisorPrompt ++
    "\n\nYou have access to the following specialized agents:\n" ++
    subAgentCatalogue subAgents ++
    "\n\nWhen you need to delegate a task, describe which agent should handle it and what they should do.\nThe system will execute the delegation and return the results.\n\nTask: " ++
    task ++ "\n  ")

/-- The runWithSupervisor of the orchestrator module: one ad hoc agent
named supervisor, configured with the composite prompt as its system
prompt, run once on the task. -/
def runWithSupervisor (e : Engine) (supervisorPrompt : String)
    (subAgents : List SubAgentSpec) (task : String) : AgentResult :=
  let supervisor := createAgent "supervisor" (enhancedPromptFor supervisorPrompt subAgents task)
  (BaseAgent.run e supervisor task).1

/-- The single query call runWithSupervisor issues. -/
def supervisorCall (supervisorPrompt : String) (subAgents : List SubAgentSpec)
    (task : String) : QueryCall :=
  queryCallOf (createAgent "supervisor" (enhancedPromptFor supervisorPrompt subAgents task)) task

/-! Lemmas about the JS Map model. -/

theorem mapGet_mapSet_self {α : Type} (m : List (String × α)) (k : String) (v : α) :
    mapGet (mapSet m k v) k = some v := by
  induction m with
  | nil => simp [mapSet, mapGet]
  | cons p rest ih =>
    obtain ⟨k0, v0⟩ := p
    by_cases h : k0 = k
    · subst h
      simp [mapSet, mapGet]
    · simp only [mapSet, if_neg h]
      simpa [mapGet, List.find?_cons, h] using ih

theorem mapGet_mapSet_ne {α : Type} (m : List (String × α)) {k k' : String} (v : α)
    (h : k' ≠ k) : mapGet (mapSet m k' v) k = mapGet m k := by
  induction m with
  | nil => simp [mapSet, mapGet, h]
  | cons p rest ih =>
    obtain ⟨k0, v0⟩ := p
    by_cases h0 : k0 = k'
    · subst h0
      simp [mapSet, mapGet, List.find?_cons, h]
    · simp only [mapSet, if_neg h0]
      by_cases hk : k0 = k
      · simp [mapGet, List.find?_cons, hk]
      · simpa [mapGet, List.find?_cons, hk] using ih

theorem mem_keys_mapSet {α : Type} (m : List (String × α)) (k k' : String) (v : α) :
    k ∈ (mapSet m k' v).map Prod.fst ↔ k = k' ∨ k ∈ m.map Prod.fst := by
  induction m with
  | nil => simp [mapSet]
  | cons p rest ih =>
    obtain ⟨k0, v0⟩ := p
    by_cases h0 : k0 = k'
    · subst h0
      simp [mapSet]
    · simp only [mapSet, if_neg h0, List.map_cons, List.mem_cons, ih]
      tauto

theorem keys_mapSet_of_mem {α : Type} (m : List (String × α)) (k : String) (v : α)
    (h : k ∈ m.map Prod.fst) : (mapSet m k v).map Prod.fst = m.map Prod.fst := by
  induction m with
  | nil => simp at h
  | cons p rest ih =>
    obtain ⟨k0, v0⟩ := p
    by_cases h0 : k0 = k
    · simp [mapSet, h0]
    · simp only [List.map_cons, List.mem_cons] at h
      rcases h with h | h
    
      · exact absurd h.symm h0
      · simp [mapSet, if_neg h0, ih h]

theorem keys_mapSet_of_not_mem {α : Type} (m : List (String × α)) (k : String) (v : α)
    (h : k ∉ m.map Prod.fst) : (mapSet m k v).map Prod.fst = m.map Prod.fst ++ [k] := by
  induction m with
  | nil => simp [mapSet]
  | cons p rest ih =>
    obtain ⟨k0, v0⟩ := p
    simp only [List.map_cons, List.mem_cons] at h
    push_neg at h
    have h0 : k0 ≠ k := fun hk => h.1 hk.symm
    simp [mapSet, if_neg h0, ih h.2]

theorem nodup_keys_mapSet {α : Type} (m : List (String × α)) (k : String) (v : α)
    (h : (m.map Prod.fst).Nodup) : ((mapSet m k v).map Prod.fst).Nodup := by
  by_cases hm : k ∈ m.map Prod.fst
  · rw [keys_mapSet_of_mem m k v hm]
    exact h
  · rw [keys_mapSet_of_not_mem m k v hm]
    refine List.Nodup.append h (List.nodup_singleton k) ?_
    simpa using hm

theorem mapGet_foldl_mapSet {α : Type} (kvs : List (String × α)) (m : List (String × α))
    (k : String) :
    mapGet (kvs.foldl (fun acc p => mapSet acc p.1 p.2) m) k =
      ((kvs.reverse.find? (fun p => p.1 == k)).map (fun p => p.2)).or (mapGet m k) := by
  induction kvs generalizing m with
  | nil => simp
  | cons p rest ih =>
    rw [List.foldl_cons, ih]
    simp only [List.reverse_cons, List.find?_append]
    cases hf : rest.reverse.find? (fun q => q.1 == k) with
    | some q => simp [hf]
    | none =>
      simp only [hf, Option.map_none, Option.none_or, Option.or_none]
      by_cases hk : p.1 = k
      · subst hk
        simp [mapGet_mapSet_self, List.find?_cons]
      · simp [mapGet_mapSet_ne _ _ hk, List.find?_cons, hk]

theorem nodup_keys_foldl_mapSet {α : Type} (kvs : List (String × α))
    (m : List (String × α)) (h : (m.map Prod.fst).Nodup) :
    (((kvs.foldl (fun acc p => mapSet acc p.1 p.2) m)).map Prod.fst).Nodup := by
  induction kvs generalizing m with
  | nil => exact h
  | cons p rest ih =>
    rw [List.foldl_cons]
    exact ih _ (nodup_keys_mapSet _ _ _ h)

theorem mem_keys_foldl_mapSet {α : Type} (kvs : List (String × α))
    (m : List (String × α)) (k : String) :
    k ∈ ((kvs.foldl (fun acc p => mapSet acc p.1 p.2) m)).map Prod.fst ↔
      k ∈ m.map Prod.fst ∨ k ∈ kvs.map Prod.fst := by
  induction kvs generalizing m with
  | nil => simp
  | cons p rest ih =>
    rw [List.foldl_cons, ih]
    simp only [mem_keys_mapSet, List.map_cons, List.mem_cons]
    tauto

/-! Lemmas about the event loop of BaseAgent.run. -/

theorem foldl_runStep_eq (msgs : List SDKMessage) (acc : AgentResult × Option String) :
    msgs.foldl runStep acc =
      match (resultDatas msgs).getLast? with
      | none => acc
      | some d => (mapResultEvent d, some d.session_id) := by
  induction msgs generalizing acc with
  | nil => rfl
  | cons m rest ih =>
    rw [List.foldl_cons, ih (runStep acc m)]
    cases m with
    | result d =>
      have h1 : resultDatas (SDKMessage.result d :: rest) = d :: resultDatas rest := by
        simp [resultDatas]
      rw [h1]
      cases hcase : resultDatas rest with
      | nil => simp [runStep]
      | cons x xs =>
        rw [List.getLast?_cons_cons]
        cases hg : (x :: xs).getLast? with
        | none =>
          exfalso
          simp [List.getLast?_eq_none_iff] at hg
        | some q => rfl
    | assistant t =>
      have h1 : resultDatas (SDKMessage.assistant t :: rest) = resultDatas rest := by
        simp [resultDatas]
      rw [h1]
      rfl
    | system t =>
      have h1 : resultDatas (SDKMessage.system t :: rest) = resultDatas rest := by
        simp [resultDatas]
      rw [h1]
      rfl

/-- BaseAgent.run on a successfully returned event list: the outcome is
determined by the last result event, or the fixed no-result failure when
there is none; the session reference is that event's session id. -/
theorem run_ok_eq (e : Engine) (a : BaseAgent) (p : String) (msgs : List SDKMessage)
    (h : e (queryCallOf a p) = .ok msgs) :
    BaseAgent.run e a p =
      match (resultDatas msgs).getLast? with
      | none => ({ success := false, error := some "No result received" }, a)
      | some d => (mapResultEvent d, { a with sessionId := some d.session_id }) := by
  unfold BaseAgent.run
  rw [h]
  simp only [foldl_runStep_eq]
  cases (resultDatas msgs).getLast? with
  | none => rfl
  | some d => rfl

/-! Lemmas about runParallelAgents. -/

/-- Lookup in the parallel fan-out mapping: the entry of a name is the
run result of the last input spec carrying that name. -/
theorem mapGet_runParallelAgents (e : Engine) (agents : List AgentSpec)
    (input : String) (n : String) :
    mapGet (runParallelAgents e agents input) n =
      (agents.reverse.find? (fun a => a.name == n)).map
        (fun a => (BaseAgent.run e (createAgent a.name a.systemPrompt) input).1) := by
  unfold runParallelAgents
  rw [mapGet_foldl_mapSet]
  have hrev : (agents.map (fun a =>
      (a.name, (BaseAgent.run e (createAgent a.name a.systemPrompt) input).1))).reverse =
      agents.reverse.map (fun a =>
        (a.name, (BaseAgent.run e (createAgent a.name a.systemPrompt) input).1)) := by
    rw [List.map_reverse]
  rw [hrev, List.find?_map]
  have : mapGet ([] : List (String × AgentResult)) n = none := rfl
  rw [this, Option.or_none]
  cases hf : agents.reverse.find? (fun a => a.name == n) with
  | none =>
    have : agents.reverse.find?
        ((fun p : String × AgentResult => p.1 == n) ∘ (fun a =>
          (a.name, (BaseAgent.run e (createAgent a.name a.systemPrompt) input).1))) = none := by
      simpa [Function.comp] using hf
    rw [this]
    rfl
  | some a =>
    have : agents.reverse.find?
        ((fun p : String × AgentResult => p.1 == n) ∘ (fun a =>
          (a.name, (BaseAgent.run e (createAgent a.name a.systemPrompt) input).1))) = some a := by
      simpa [Function.comp] using hf
    rw [this]
    rfl

theorem keys_runParallelAgents (e : Engine) (agents : List AgentSpec)
    (input : String) :
    ((runParallelAgents e agents input).map Prod.fst).Nodup ∧
      ∀ n, n ∈ (runParallelAgents e agents input).map Prod.fst ↔
        n ∈ agents.map AgentSpec.name := by
  constructor
  · exact nodup_keys_foldl_mapSet _ _ (by simp)
  · intro n
    unfold runParallelAgents
    rw [mem_keys_foldl_mapSet]
    simp [List.map_map, Function.comp]

/-! Lemmas about the sequential chain trace. -/

theorem seqTrace_nil_iff (e : Engine) (agents : List AgentSpec) (input : String) :
    runSequentialChainTrace e agents input = [] ↔ agents = [] := by
  cases agents with
  | nil => simp [runSequentialChainTrace]
  | cons spec rest =>
    simp only [runSequentialChainTrace]
    constructor
    · intro h
      by_cases hs : ((BaseAgent.run e (createAgent spec.name spec.systemPrompt) input).1).success
      · rw [if_pos hs] at h
        exact absurd h (List.cons_ne_nil _ _)
      · rw [if_neg hs] at h
        exact absurd h (List.cons_ne_nil _ _)
    · intro h
      exact absurd h (List.cons_ne_nil _ _)

theorem seqTrace_length_le (e : Engine) (agents : List AgentSpec) (input : String) :
    (runSequentialChainTrace e agents input).length ≤ agents.length := by
  induction agents generalizing input with
  | nil => simp [runSequentialChainTrace]
  | cons spec rest ih =>
    simp only [runSequentialChainTrace]
    by_cases hs : ((BaseAgent.run e (createAgent spec.name spec.systemPrompt) input).1).success
    · rw [if_pos hs]
      simpa using ih _
    · rw [if_neg hs]
      simp [Nat.succ_le_succ (Nat.zero_le _)]

theorem seqTrace_dropLast_success (e : Engine) (agents : List AgentSpec) (input : String) :
    ∀ x ∈ (runSequentialChainTrace e agents input).dropLast, x.2.success = true := by
  induction agents generalizing input with
  | nil => simp [runSequentialChainTrace]
  | cons spec rest ih =>
    simp only [runSequentialChainTrace]
    by_cases hs : ((BaseAgent.run e (createAgent spec.name spec.systemPrompt) input).1).success
    · rw [if_pos hs]
      intro x hx
      cases hr : runSequentialChainTrace e rest
          (sequentialWrapper ((BaseAgent.run e (createAgent spec.name spec.systemPrompt) input).1).result) with
      | nil => rw [hr] at hx; simp at hx
      | cons y ys =>
        rw [hr] at hx
        rw [List.dropLast_cons_of_ne_nil (List.cons_ne_nil y ys)] at hx
        rcases List.mem_cons.mp hx with h | h
        · rw [h]; exact hs
        · exact ih _ x (by rw [hr]; exact h)
    · rw [if_neg hs]
      simp

theorem seqTrace_last_failure (e : Engine) (agents : List AgentSpec) (input : String)
    (h : (runSequentialChainTrace e agents input).length < agents.length) :
    ∃ x, (runSequentialChainTrace e agents input).getLast? = some x ∧ x.2.success = false := by
  induction agents generalizing input with
  | nil => simp [runSequentialChainTrace] at h
  | cons spec rest ih =>
    simp only [runSequentialChainTrace] at h ⊢
    by_cases hs : ((BaseAgent.run e (createAgent spec.name spec.systemPrompt) input).1).success
    · rw [if_pos hs] at h ⊢
      rw [List.length_cons, List.length_cons, Nat.succ_lt_succ_iff] at h
      obtain ⟨x, hx, hfail⟩ := ih _ h
      refine ⟨x, ?_, hfail⟩
      have hne : runSequentialChainTrace e rest
          (sequentialWrapper ((BaseAgent.run e (createAgent spec.name spec.systemPrompt) input).1).result) ≠ [] := by
        intro hnil
        rw [hnil] at hx
        simp at hx
      rw [List.getLast?_cons, hx]
      cases hcase : runSequentialChainTrace e rest
          (sequentialWrapper ((BaseAgent.run e (createAgent spec.name spec.systemPrompt) input).1).result) with
      | nil => exact absurd hcase hne
      | cons y ys =>
        rw [hcase] at hx
        simp [hx]
    · rw [if_neg hs]
      exact ⟨_, rfl, by simpa using hs⟩

theorem seqTrace_all_success_length (e : Engine) (agents : List AgentSpec) (input : String)
    (h : ∀ x ∈ runSequentialChainTrace e agents input, x.2.success = true) :
    (runSequentialChainTrace e agents input).length = agents.length := by
  induction agents generalizing input with
  | nil => simp [runSequentialChainTrace]
  | cons spec rest ih =>
    simp only [runSequentialChainTrace] at h ⊢
    by_cases hs : ((BaseAgent.run e (createAgent spec.name spec.systemPrompt) input).1).success
    · rw [if_pos hs] at h ⊢
      simp only [List.length_cons, Nat.succ_inj]
      exact ih _ (fun x hx => h x (List.mem_cons_of_mem _ hx))
    · rw [if_neg hs] at h
      exact absurd (h _ (List.mem_cons_self _ _)) (by simpa using hs)

theorem seqTrace_getElem_zero (e : Engine) (agents : List AgentSpec) (input : String) :
    ∀ p, (runSequentialChainTrace e agents input)[0]? = some p → p.1 = input := by
  cases agents with
  | nil => simp [runSequentialChainTrace]
  | cons spec rest =>
    intro p hp
    simp only [runSequentialChainTrace] at hp
    by_cases hs : ((BaseAgent.run e (createAgent spec.name spec.systemPrompt) input).1).success
    · rw [if_pos hs] at hp
      simp only [List.getElem?_cons_zero, Option.some_inj] at hp
      rw [← hp]
    · rw [if_neg hs] at hp
      simp only [List.getElem?_cons_zero, Option.some_inj] at hp
      rw [← hp]

theorem seqTrace_adjacent (e : Engine) (agents : List AgentSpec) (input : String) :
    ∀ i p q, (runSequentialChainTrace e agents input)[i]? = some p →
      (runSequentialChainTrace e agents input)[i + 1]? = some q →
      q.1 = sequentialWrapper p.2.result := by
  induction agents generalizing input with
  | nil => simp [runSequentialChainTrace]
  | cons spec rest ih =>
    intro i p q hp hq
    simp only [runSequentialChainTrace] at hp hq
    by_cases hs : ((BaseAgent.run e (createAgent spec.name spec.systemPrompt) input).1).success
    · rw [if_pos hs] at hp hq
      cases i with
      | zero =>
        simp only [List.getElem?_cons_zero, Option.some_inj] at hp
        simp only [List.getElem?_cons_succ] at hq
        have := seqTrace_getElem_zero e rest
          (sequentialWrapper ((BaseAgent.run e (createAgent spec.name spec.systemPrompt) input).1).result)
          q hq
        rw [this, ← hp]
      | succ j =>
        simp only [List.getElem?_cons_succ] at hp hq
        exact ih _ j p q hp hq
    · rw [if_neg hs] at hp hq
      rcases i with _ | j
      · simp at hq
      · simp at hp

theorem seqTrace_getElem_run (e : Engine) (agents : List AgentSpec) (input : String) :
    ∀ (i : Nat) (p : String × AgentResult), (runSequentialChainTrace e agents input)[i]? = some p →
      ∃ spec, agents[i]? = some spec ∧
        p.2 = (BaseAgent.run e (createAgent spec.name spec.systemPrompt) p.1).1 := by
  induction agents generalizing input with
  | nil => simp [runSequentialChainTrace]
  | cons spec rest ih =>
    intro i p hp
    simp only [runSequentialChainTrace] at hp
    by_cases hs : ((BaseAgent.run e (createAgent spec.name spec.systemPrompt) input).1).success
    · rw [if_pos hs] at hp
      cases i with
      | zero =>
        simp only [List.getElem?_cons_zero, Option.some_inj] at hp
        exact ⟨spec, by simp, by rw [← hp]⟩
      | succ j =>
        simp only [List.getElem?_cons_succ] at hp
        obtain ⟨s, hs1, hs2⟩ := ih _ j p hp
        exact ⟨s, by simpa using hs1, hs2⟩
    · rw [if_neg hs] at hp
      cases i with
      | zero =>
        simp only [List.getElem?_cons_zero, Option.some_inj] at hp
        exact ⟨spec, by simp, by rw [← hp]⟩
      | succ j =>
        simp at hp

/-! Lemmas about the pipeline trace. -/

theorem pipeTrace_getElem_zero (e : Engine) (stages : List PipelineStage) (input : String) :
    ∀ p, (runPipelineTrace e stages input)[0]? = some p → p.2.1 = input := by
  cases stages with
  | nil => simp [runPipelineTrace]
  | cons stage rest =>
    intro p hp
    simp only [runPipelineTrace] at hp
    by_cases hs : ((BaseAgent.run e (createAgent stage.name stage.systemPrompt) input).1).success
    · rw [if_pos hs] at hp
      simp only [List.getElem?_cons_zero, Option.some_inj] at hp
      rw [← hp]
    · rw [if_neg hs] at hp
      simp only [List.getElem?_cons_zero, Option.some_inj] at hp
      rw [← hp]

theorem pipeTrace_adjacent (e : Engine) (stages : List PipelineStage) (input : String) :
    ∀ (i : Nat) (p q : String × String × AgentResult), (runPipelineTrace e stages input)[i]? = some p →
      (runPipelineTrace e stages input)[i + 1]? = some q →
      ∃ stage, stages[i]? = some stage ∧ p.1 = stage.name ∧
        q.2.1 = pipelineNextInput stage p.2.2 := by
  induction stages generalizing input with
  | nil => simp [runPipelineTrace]
  | cons stage rest ih =>
    intro i p q hp hq
    simp only [runPipelineTrace] at hp hq
    by_cases hs : ((BaseAgent.run e (createAgent stage.name stage.systemPrompt) input).1).success
    · rw [if_pos hs] at hp hq
      cases i with
      | zero =>
        simp only [List.getElem?_cons_zero, Option.some_inj] at hp
        simp only [List.getElem?_cons_succ] at hq
        have := pipeTrace_getElem_zero e rest
          (pipelineNextInput stage ((BaseAgent.run e (createAgent stage.name stage.systemPrompt) input).1))
          q hq
        exact ⟨stage, by simp, by rw [← hp], by rw [this, ← hp]⟩
      | succ j =>
        simp only [List.getElem?_cons_succ] at hp hq
        obtain ⟨s, h1, h2, h3⟩ := ih _ j p q hp hq
        exact ⟨s, by simpa using h1, h2, h3⟩
    · rw [if_neg hs] at hp hq
      rcases i with _ | j
      · simp at hq
      · simp at hp

/-! Lemmas about the consensus winner fold. -/

/-- The maximal tally of a vote-count map. -/
def maxTally (cs : List (String × Nat)) : Nat :=
  cs.foldr (fun p acc => max p.2 acc) 0

theorem maxTally_cons (p : String × Nat) (rest : List (String × Nat)) :
    maxTally (p :: rest) = max p.2 (maxTally rest) := rfl

theorem find?_maxTally_isSome (cs : List (String × Nat)) (h : 0 < maxTally cs) :
    (cs.find? (fun p => p.2 == maxTally cs)).isSome := by
  induction cs with
  | nil => simp [maxTally] at h
  | cons p rest ih =>
    rw [maxTally_cons] at h ⊢
    by_cases hp : p.2 = max p.2 (maxTally rest)
    · rw [List.find?_cons_of_pos _ (by simpa using hp)]
      rfl
    · have hmax : max p.2 (maxTally rest) = maxTally rest := by
        rcases Nat.le_total p.2 (maxTally rest) with hle | hle
        · exact Nat.max_eq_right hle
        · exact absurd (Nat.max_eq_left hle).symm hp
      rw [List.find?_cons_of_neg _ (by simpa using hp), hmax]
      rw [hmax] at h
      exact ih h

theorem winnerFold_eq (cs : List (String × Nat)) (w : String) (m : Nat) :
    cs.foldl (fun wm p => if p.2 > wm.2 then p else wm) (w, m) =
      if maxTally cs ≤ m then (w, m)
      else (cs.find? (fun p => p.2 == maxTally cs)).getD (w, m) := by
  induction cs generalizing w m with
  | nil => simp [maxTally]
  | cons p rest ih =>
    obtain ⟨pn, pc⟩ := p
    rw [List.foldl_cons, maxTally_cons]
    by_cases hpm : pc > m
    · rw [show (if (pn, pc).2 > (w, m).2 then (pn, pc) else (w, m)) = (pn, pc) from
        if_pos hpm]
      rw [ih pn pc]
      by_cases hMp : maxTally rest ≤ pc
      · rw [if_pos hMp]
        have hmax : max pc (maxTally rest) = pc := Nat.max_eq_left hMp
        rw [hmax, if_neg (by omega)]
        rw [List.find?_cons_of_pos _ (by simp)]
        rfl
      · rw [if_neg hMp]
        have hlt : pc < maxTally rest := Nat.lt_of_not_le hMp
        have hmax : max pc (maxTally rest) = maxTally rest := Nat.max_eq_right (Nat.le_of_lt hlt)
        rw [hmax, if_neg (by omega)]
        rw [List.find?_cons_of_neg _ (by simp; omega)]
        obtain ⟨q, hq⟩ := Option.isSome_iff_exists.mp
          (find?_maxTally_isSome rest (by omega))
        rw [hq]
        rfl
    · rw [show (if (pn, pc).2 > (w, m).2 then (pn, pc) else (w, m)) = (w, m) from
        if_neg hpm]
      rw [ih w m]
      have hpc : pc ≤ m := Nat.le_of_not_lt hpm
      by_cases hMm : maxTally rest ≤ m
      · rw [if_pos hMm, if_pos (by simp [Nat.max_le]; omega)]
      · rw [if_neg hMm]
        have hmax : max pc (maxTally rest) = maxTally rest :=
          Nat.max_eq_right (by omega)
        rw [hmax, if_neg hMm]
        rw [List.find?_cons_of_neg _ (by simp; omega)]

/-- Specification-side winner: the first entry, in tally-map insertion
order (the order in which options first received a valid vote), whose
tally equals the maximal tally; the default when no votes were tallied.
This is the tie-break the code actually implements: ties at the maximal
tally are resolved by tally-map insertion order, not by position in the
options list. -/
def firstMaxOption (default : String) (cs : List (String × Nat)) : String :=
  if maxTally cs = 0 then default
  else ((cs.find? (fun p => p.2 == maxTally cs)).getD (default, 0)).1

theorem selectWinner_eq_firstMax (options : List String) (cs : List (String × Nat)) :
    selectWinner options cs = firstMaxOption (options.headD "") cs := by
  unfold selectWinner firstMaxOption
  rw [winnerFold_eq]
  by_cases h : maxTally cs = 0
  · rw [if_pos (by omega), if_pos h]
  · rw [if_neg (by omega), if_neg h]

/-! Concrete engines used by closed statements. -/

/-- A successful terminal result event with the given text and session. -/
def successEvent (text sid : String) : SDKMessage :=
  .result { subtype := "success", result := text, session_id := sid,
            num_turns := 1, usage := { input_tokens := 1, output_tokens := 1 } }

/-- An engine scripted by the system prompt of the calling agent. -/
def scriptEngine (script : String → List SDKMessage) : Engine :=
  fun qc => .ok (script qc.systemPrompt)

/-- An engine whose every call throws an Error with the given message. -/
def errorEngine (msg : String) : Engine :=
  fun _ => .error (some msg)

/-- Two voters: the agent with system prompt s1 votes for option 2, the
agent with system prompt s2 votes for option 1. -/
def tieEngine : Engine :=
  scriptEngine (fun sp =>
    if sp = "s1" then [successEvent "2. because" "sid1"]
    else if sp = "s2" then [successEvent "1. because" "sid2"]
    else [])

/-- Five voters casting 1, 2, 2, 3 and an unparseable response. -/
def fiveVoteEngine : Engine :=
  scriptEngine (fun sp =>
    if sp = "s1" then [successEvent "1 reasoning" "x1"]
    else if sp = "s2" then [successEvent "2 reasoning" "x2"]
    else if sp = "s3" then [successEvent "2 more" "x3"]
    else if sp = "s4" then [successEvent "3 ok" "x4"]
    else if sp = "s5" then [successEvent "I pick the first" "x5"]
    else [])

def fiveVoteAgents : List AgentSpec :=
  [{ name := "a1", systemPrompt := "s1" }, { name := "a2", systemPrompt := "s2" },
   { name := "a3", systemPrompt := "s3" }, { name := "a4", systemPrompt := "s4" },
   { name := "a5", systemPrompt := "s5" }]

/-! The claims. -/

/-- C1, counterexample to the claim as stated: with options A then B and
two valid votes split evenly between them (the first agent in input
order voting B, the second voting A), the winner is B, not the
options-list-earlier A the claim requires for a tie. -/
theorem consensus_tiebreak_counterexample :
    countVotes (runConsensusAgents tieEngine
        [{ name := "a1", systemPrompt := "s1" }, { name := "a2", systemPrompt := "s2" }]
        "q" ["A", "B"]).2 = [("B", 1), ("A", 1)] ∧
    (runConsensusAgents tieEngine
        [{ name := "a1", systemPrompt := "s1" }, { name := "a2", systemPrompt := "s2" }]
        "q" ["A", "B"]).1 = "B" ∧
    (runConsensusAgents tieEngine
        [{ name := "a1", systemPrompt := "s1" }, { name := "a2", systemPrompt := "s2" }]
        "q" ["A", "B"]).1 ≠ "A" :=
  ⟨rfl, rfl, by decide⟩

/-- C1 (amended): the winner is the option with the strictly highest
tally of valid votes, and with no valid votes it is the first option;
but a tie at the highest tally is broken by tally-map insertion order
(the tied option whose first valid vote came earliest in agent input
order), not by position in the options list. Formally: the winner
always equals firstMaxOption of the vote tallies, with the first option
as the default. -/
theorem runConsensusAgents_winner_eq_firstMax (e : Engine) (agents : List AgentSpec)
    (question : String) (options : List String) :
    (runConsensusAgents e agents question options).1 =
      firstMaxOption (options.headD "")
        (countVotes (runConsensusAgents e agents question options).2) :=
  selectWinner_eq_firstMax options
    (countVotes (parseVotes options (runParallelAgents e agents (votingPrompt question options))))

/-- C2: the sequential chain executes stages in order and stops at the
first failure: the result list never exceeds the stage list; every
result but the last is a success; a result list shorter than the stage
list ends in a failure; an all-success run covers every stage; the
number of invoked stages equals the number of returned results; and the
i-th executed stage's result is the run of the i-th configured agent on
the recorded prompt. -/
theorem runSequentialChain_stops_at_first_failure (e : Engine) (agents : List AgentSpec)
    (input : String) :
    (runSequentialChain e agents input).length ≤ agents.length ∧
    (∀ r ∈ (runSequentialChain e agents input).dropLast, r.success = true) ∧
    ((runSequentialChain e agents input).length < agents.length →
      ∃ r, (runSequentialChain e agents input).getLast? = some r ∧ r.success = false) ∧
    ((∀ r ∈ runSequentialChain e agents input, r.success = true) →
      (runSequentialChain e agents input).length = agents.length) ∧
    (runSequentialChainTrace e agents input).length =
      (runSequentialChain e agents input).length ∧
    (∀ (i : Nat) (p : String × AgentResult),
      (runSequentialChainTrace e agents input)[i]? = some p →
      ∃ spec, agents[i]? = some spec ∧
        p.2 = (BaseAgent.run e (createAgent spec.name spec.systemPrompt) p.1).1) := by
  refine ⟨?_, ?_, ?_, ?_, ?_, seqTrace_getElem_run e agents input⟩
  · simpa [runSequentialChain] using seqTrace_length_le e agents input
  · intro r hr
    rw [runSequentialChain, ← List.map_dropLast] at hr
    obtain ⟨x, hx, hxr⟩ := List.mem_map.mp hr
    rw [← hxr]
    exact seqTrace_dropLast_success e agents input x hx
  · intro hlen
    rw [runSequentialChain, List.length_map] at hlen
    obtain ⟨x, hx, hfail⟩ := seqTrace_last_failure e agents input hlen
    refine ⟨x.2, ?_, hfail⟩
    rw [runSequentialChain, List.getLast?_map, hx]
    rfl
  · intro hall
    rw [runSequentialChain, List.length_map]
    refine seqTrace_all_success_length e agents input (fun x hx => ?_)
    exact hall x.2 (by rw [runSequentialChain]; exact List.mem_map_of_mem _ hx)
  · rw [runSequentialChain, List.length_map]

/-- C3: the parallel fan-out mapping holds an entry for every input
agent name and nothing else, its keys are unique, and the entry of each
name is exactly the run result of the last input spec carrying that
name (last-writer-wins for duplicates), independent of every sibling's
outcome. -/
theorem runParallelAgents_complete_mapping (e : Engine) (agents : List AgentSpec)
    (input : String) :
    (∀ n : String, mapGet (runParallelAgents e agents input) n =
      (agents.reverse.find? (fun a => a.name == n)).map
        (fun a => (BaseAgent.run e (createAgent a.name a.systemPrompt) input).1)) ∧
    ((runParallelAgents e agents input).map Prod.fst).Nodup ∧
    (∀ n, n ∈ (runParallelAgents e agents input).map Prod.fst ↔
      n ∈ agents.map AgentSpec.name) :=
  ⟨mapGet_runParallelAgents e agents input,
   (keys_runParallelAgents e agents input).1,
   (keys_runParallelAgents e agents input).2⟩

/-- C8: the vote map is the fold of parseVote over the parallel results;
parseVote yields an option exactly for a successful result whose text
starts with a digit run giving a 1-based index into the options list,
and yields nothing otherwise (silent exclusion); and on the spec's
five-voter example over options A, B, C the tallies are A 1, B 2, C 1
over four valid votes with winner B. -/
theorem consensus_vote_parsing (e : Engine) (agents : List AgentSpec)
    (question : String) (options : List String) :
    (runConsensusAgents e agents question options).2 =
      parseVotes options (runParallelAgents e agents (votingPrompt question options)) ∧
    (∀ (r : AgentResult) (opt : String),
      parseVote options r = some opt ↔
        r.success = true ∧ ∃ t ds, r.result = some t ∧ leadingDigits t = some ds ∧
          1 ≤ digitsToNat ds ∧ digitsToNat ds ≤ options.length ∧
          opt = options.getD (digitsToNat ds - 1) "") ∧
    (runConsensusAgents fiveVoteEngine fiveVoteAgents "q" ["A", "B", "C"] =
      ("B", [("a1", "A"), ("a2", "B"), ("a3", "B"), ("a4", "C")]) ∧
     countVotes [("a1", "A"), ("a2", "B"), ("a3", "B"), ("a4", "C")] =
      [("A", 1), ("B", 2), ("C", 1)]) := by
  refine ⟨rfl, ?_, rfl, rfl⟩
  intro r opt
  constructor
  · intro h
    unfold parseVote at h
    by_cases hs : r.success
    · rw [if_pos hs] at h
      cases hres : r.result with
      | none => simp [hres] at h
      | some t =>
        simp only [hres] at h
        by_cases ht : t = ""
        · simp [if_pos ht] at h
        · rw [if_neg ht] at h
          cases hld : leadingDigits t with
          | none => simp [hld] at h
          | some ds =>
            simp only [hld] at h
            by_cases hrange : 1 ≤ digitsToNat ds ∧ digitsToNat ds ≤ options.length
            · rw [if_pos hrange] at h
              exact ⟨hs, t, ds, hres.symm ▸ rfl, hld, hrange.1, hrange.2, (Option.some_inj.mp h).symm⟩
            · simp [if_neg hrange] at h
    · simp [if_neg hs] at h
  · rintro ⟨hs, t, ds, hres, hld, h1, h2, hopt⟩
    unfold parseVote
    rw [if_pos hs, hres]
    have ht : t ≠ "" := by
      intro ht
      rw [ht] at hld
      exact absurd hld (by simp [leadingDigits])
    simp only
    rw [if_neg ht, hld]
    simp only
    rw [if_pos ⟨h1, h2⟩, hopt]

/-- C4: every registry lookup failure is atomic and fast: an execute on
an unregistered name, a handoff with no current agent, and a handoff to
an unregistered target each return the corresponding failed AgentResult
with the orchestrator state unchanged (no HandoffRecord appended, cursor
untouched) and with no agent run invoked (empty invocation list). -/
theorem orchestrator_lookup_failures_pure (e : Engine) (st : AgentOrchestrator)
    (name task tgt ctx : String) (data : Option String) :
    (mapGet st.agents name = none →
      AgentOrchestrator.execute e st name task =
        ({ success := false, error := some ("Agent not found: " ++ name) }, st, [])) ∧
    (st.currentAgent = none →
      AgentOrchestrator.handoff e st tgt ctx data =
        ({ success := false, error := some "No current agent to hand off from" }, st, [])) ∧
    (∀ cur, st.currentAgent = some cur → mapGet st.agents tgt = none →
      AgentOrchestrator.handoff e st tgt ctx data =
        ({ success := false, error := some ("Target agent not found: " ++ tgt) }, st, [])) := by
  refine ⟨?_, ?_, ?_⟩
  · intro h
    unfold AgentOrchestrator.execute
    rw [h]
  · intro h
    unfold AgentOrchestrator.handoff
    rw [h]
  · intro cur hcur h
    unfold AgentOrchestrator.handoff
    rw [hcur]
    simp only [h]

/-- C5: BaseAgent.run is total and maps every failure mode to a
well-formed AgentResult: a thrown engine error becomes a failure
carrying the error's message; an event sequence with no terminal result
event becomes the fixed no-result failure; a single non-success terminal
event becomes a failure carrying that event's subtype as the error code
and its sub-error list. -/
theorem baseAgent_run_error_mapping (e : Engine) (a : BaseAgent) (p : String) :
    (∀ msg : Option String, e (queryCallOf a p) = .error msg →
      BaseAgent.run e a p =
        ({ success := false, error := some (msg.getD "Unknown error") }, a)) ∧
    (∀ msgs : List SDKMessage, e (queryCallOf a p) = .ok msgs → resultDatas msgs = [] →
      (BaseAgent.run e a p).1 = { success := false, error := some "No result received" }) ∧
    (∀ (msgs : List SDKMessage) (d : ResultEventData),
      e (queryCallOf a p) = .ok msgs → resultDatas msgs = [d] → d.subtype ≠ "success" →
      (BaseAgent.run e a p).1 =
        { success := false, sessionId := some d.session_id, numTurns := some d.num_turns,
          error := some d.subtype, errors := d.errors }) := by
  refine ⟨?_, ?_, ?_⟩
  · intro msg h
    unfold BaseAgent.run
    rw [h]
  · intro msgs h hnil
    rw [run_ok_eq e a p msgs h, hnil]
    rfl
  · intro msgs d h hone hsub
    rw [run_ok_eq e a p msgs h, hone]
    simp [mapResultEvent, hsub]

/-- BaseAgent.run consults the engine at exactly one call: two engines
agreeing on that call give identical runs. -/
theorem run_engine_congr (e1 e2 : Engine) (a : BaseAgent) (p : String)
    (h : e1 (queryCallOf a p) = e2 (queryCallOf a p)) :
    BaseAgent.run e1 a p = BaseAgent.run e2 a p := by
  unfold BaseAgent.run
  rw [h]

/-- C6: runWithSupervisor is exactly one ad hoc supervisor run: it
returns the result of running the agent named supervisor, configured
with the composite prompt (base instructions, delegate catalogue, task)
as its system prompt, on the task; and its outcome depends on the
engine's behavior at that single supervisor call alone, so no delegate
agent is ever constructed or invoked. -/
theorem runWithSupervisor_single_supervisor_run (supervisorPrompt : String)
    (subAgents : List SubAgentSpec) (task : String) :
    (∀ e : Engine, runWithSupervisor e supervisorPrompt subAgents task =
      (BaseAgent.run e
        (createAgent "supervisor" (enhancedPromptFor supervisorPrompt subAgents task))
        task).1) ∧
    (∀ e1 e2 : Engine,
      e1 (supervisorCall supervisorPrompt subAgents task) =
        e2 (supervisorCall supervisorPrompt subAgents task) →
      runWithSupervisor e1 supervisorPrompt subAgents task =
        runWithSupervisor e2 supervisorPrompt subAgents task) := by
  refine ⟨fun e => rfl, ?_⟩
  intro e1 e2 h
  show (BaseAgent.run e1
      (createAgent "supervisor" (enhancedPromptFor supervisorPrompt subAgents task)) task).1 =
    (BaseAgent.run e2
      (createAgent "supervisor" (enhancedPromptFor supervisorPrompt subAgents task)) task).1
  rw [run_engine_congr e1 e2 _ task h]

/-- C7: inter-stage prompt construction. In the sequential chain the
first stage receives the initial input and each later stage receives,
byte for byte, the fixed wrapper around the previous stage's result
text; in the pipeline the first stage receives the initial input and
each later stage receives the previous stage's result text with that
stage's transform applied when supplied and verbatim when absent, with
no wrapper. -/
theorem interstage_prompt_construction (e : Engine) (agents : List AgentSpec)
    (stages : List PipelineStage) (input1 input2 : String) :
    ((∀ p, (runSequentialChainTrace e agents input1)[0]? = some p → p.1 = input1) ∧
     (∀ (i : Nat) (p q : String × AgentResult),
       (runSequentialChainTrace e agents input1)[i]? = some p →
       (runSequentialChainTrace e agents input1)[i + 1]? = some q →
       ∀ t, p.2.result = some t →
         q.1 = "Previous agent output:\n" ++ t ++ "\n\nPlease continue with your task.")) ∧
    ((∀ p, (runPipelineTrace e stages input2)[0]? = some p → p.2.1 = input2) ∧
     (∀ (i : Nat) (p q : String × String × AgentResult),
       (runPipelineTrace e stages input2)[i]? = some p →
       (runPipelineTrace e stages input2)[i + 1]? = some q →
       ∃ stage, stages[i]? = some stage ∧ p.1 = stage.name ∧
         ∀ t, p.2.2.result = some t →
           q.2.1 = match stage.transform with
             | some f => f t
             | none => t)) := by
  refine ⟨⟨seqTrace_getElem_zero e agents input1, ?_⟩,
          ⟨pipeTrace_getElem_zero e stages input2, ?_⟩⟩
  · intro i p q hp hq t ht
    have := seqTrace_adjacent e agents input1 i p q hp hq
    rw [this]
    simp only [sequentialWrapper, ht]
  · intro i p q hp hq
    obtain ⟨stage, h1, h2, h3⟩ := pipeTrace_adjacent e stages input2 i p q hp hq
    refine ⟨stage, h1, h2, ?_⟩
    intro t ht
    rw [h3]
    simp only [pipelineNextInput, ht]
    cases stage.transform <;> rfl

/-- C9: after every successful BaseAgent.run call, the agent's session
reference equals the session identifier of the terminal result event of
that call's event sequence. -/
theorem run_success_updates_session (e : Engine) (a : BaseAgent) (p : String)
    (msgs : List SDKMessage) (d : ResultEventData)
    (hok : e (queryCallOf a p) = .ok msgs) (hone : resultDatas msgs = [d])
    (hsucc : (BaseAgent.run e a p).1.success = true) :
    (BaseAgent.run e a p).2.sessionId = some d.session_id := by
  rw [run_ok_eq e a p msgs hok, hone]
  rfl

/-- C9 witness: a concrete successful run whose terminal event carries
session sess9 leaves the agent's session reference at sess9. -/
theorem run_success_updates_session_witness :
    (BaseAgent.run (scriptEngine (fun _ => [successEvent "ok" "sess9"]))
      (createAgent "w" "ws") "hi").2.sessionId = some "sess9" :=
  run_success_updates_session _ _ _ [successEvent "ok" "sess9"]
    { subtype := "success", result := "ok", session_id := "sess9",
      num_turns := 1, usage := { input_tokens := 1, output_tokens := 1 } }
    rfl rfl rfl

/-- C10: when a current agent is set and the target is registered,
handoff appends exactly one HandoffRecord carrying the previous cursor
as source plus the given target, context and data, advances the cursor
to the target, and invokes exactly the target's run on the synthesized
message; the appended record and advanced cursor do not depend on the
run's outcome, so they persist when the delegated run fails or the
engine throws. -/
theorem handoff_success_records_and_cursor (e : Engine) (st : AgentOrchestrator)
    (cur tgt ctx : String) (data : Option String) (ag : BaseAgent)
    (hcur : st.currentAgent = some cur) (hag : mapGet st.agents tgt = some ag) :
    (AgentOrchestrator.handoff e st tgt ctx data).2.1.handoffHistory =
      st.handoffHistory ++ [{ fromAgent := cur, toAgent := tgt, context := ctx, data := data }] ∧
    (AgentOrchestrator.handoff e st tgt ctx data).2.1.currentAgent = some tgt ∧
    (AgentOrchestrator.handoff e st tgt ctx data).2.2 = [tgt] ∧
    (AgentOrchestrator.handoff e st tgt ctx data).1 =
      (BaseAgent.run e ag (handoffMessage cur ctx data)).1 := by
  unfold AgentOrchestrator.handoff
  rw [hcur]
  simp [hag]

/-- A one-agent orchestrator whose cursor is already set to agent a,
used to witness the handoff mutations under a throwing engine. -/
def handoffWitnessState : AgentOrchestrator :=
  { agents := [("b", BaseAgent.create { name := "b", systemPrompt := "sb" })],
    handoffHistory := [],
    currentAgent := some "a" }

/-- C10 witness: a concrete handoff under an engine that always throws
still appends its record and advances the cursor to the target. -/
theorem handoff_success_records_and_cursor_witness :
    (AgentOrchestrator.handoff (errorEngine "boom") handoffWitnessState
        "b" "ctx" none).2.1.handoffHistory =
      [{ fromAgent := "a", toAgent := "b", context := "ctx", data := none }] ∧
    (AgentOrchestrator.handoff (errorEngine "boom") handoffWitnessState
        "b" "ctx" none).2.1.currentAgent = some "b" ∧
    (AgentOrchestrator.handoff (errorEngine "boom") handoffWitnessState
        "b" "ctx" none).2.2 = ["b"] ∧
    (AgentOrchestrator.handoff (errorEngine "boom") handoffWitnessState
        "b" "ctx" none).1 =
      (BaseAgent.run (errorEngine "boom")
        (BaseAgent.create { name := "b", systemPrompt := "sb" })
        (handoffMessage "a" "ctx" none)).1 :=
  handoff_success_records_and_cursor (errorEngine "boom") handoffWitnessState
    "a" "b" "ctx" none (BaseAgent.create { name := "b", systemPrompt := "sb" }) rfl rfl
